import Mathlib

/-!
Verification of the raster display engine of the texpaint repository
(src/src/widget/imageDisplay.ts), shallowly embedded in Lean 4.

Numbers are modelled by `ℚ` (exact arithmetic for the coordinate
pipeline) and buffers by `List ℕ` of byte values.  JavaScript typed
arrays are reference values: we model each allocated array as an `Arr`
carrying an allocation identifier, so that aliasing (`this.buffer =
this.history[i]`) and deep copies (`new Uint8ClampedArray(buf)`) are
distinguishable.  A fresh-identifier counter `nextId` lives in the
display state.

The vector/matrix operations are embeddings of the gl-matrix library
functions the widget calls (`mat4.translate`, `mat4.scale`,
`mat4.invert`, `vec3.transformMat4`, ...), in gl-matrix's column-major
layout: field `m(4*c+r)` is row `r` of column `c`.
-/

/-- A 3-component vector, as gl-matrix `vec3`. -/
@[ext] structure Vec3 where
  x : ℚ
  y : ℚ
  z : ℚ
deriving DecidableEq, Repr

/-- A 4x4 matrix in gl-matrix column-major layout. -/
@[ext] structure Mat4 where
  m0 : ℚ
  m1 : ℚ
  m2 : ℚ
  m3 : ℚ
  m4 : ℚ
  m5 : ℚ
  m6 : ℚ
  m7 : ℚ
  m8 : ℚ
  m9 : ℚ
  m10 : ℚ
  m11 : ℚ
  m12 : ℚ
  m13 : ℚ
  m14 : ℚ
  m15 : ℚ
deriving DecidableEq, Repr

/-- gl-matrix `mat4.create()` / `mat4.identity`: the identity matrix. -/
def idMat : Mat4 := ⟨1,0,0,0, 0,1,0,0, 0,0,1,0, 0,0,0,1⟩

/-- gl-matrix `vec3.negate`. -/
def vec3Negate (v : Vec3) : Vec3 := ⟨-v.x, -v.y, -v.z⟩

/-- gl-matrix `vec3.sub`. -/
def vec3Sub (a b : Vec3) : Vec3 := ⟨a.x - b.x, a.y - b.y, a.z - b.z⟩

/-- gl-matrix `mat4.translate(out, a, v)` with `out === a`:
post-multiplies `a` by the translation matrix of `v`. -/
def mat4Translate (a : Mat4) (v : Vec3) : Mat4 :=
  { a with
    m12 := a.m0 * v.x + a.m4 * v.y + a.m8 * v.z + a.m12
    m13 := a.m1 * v.x + a.m5 * v.y + a.m9 * v.z + a.m13
    m14 := a.m2 * v.x + a.m6 * v.y + a.m10 * v.z + a.m14
    m15 := a.m3 * v.x + a.m7 * v.y + a.m11 * v.z + a.m15 }

/-- gl-matrix `mat4.scale(out, a, v)`: post-multiplies `a` by the
diagonal scaling matrix of `v`. -/
def mat4Scale (a : Mat4) (v : Vec3) : Mat4 :=
  ⟨a.m0 * v.x, a.m1 * v.x, a.m2 * v.x, a.m3 * v.x,
   a.m4 * v.y, a.m5 * v.y, a.m6 * v.y, a.m7 * v.y,
   a.m8 * v.z, a.m9 * v.z, a.m10 * v.z, a.m11 * v.z,
   a.m12, a.m13, a.m14, a.m15⟩

/-- gl-matrix `mat4.multiply(out, a, b)`: the matrix product `a * b`
(columns of `b` mapped through `a`). -/
def mat4Mul (a b : Mat4) : Mat4 :=
  ⟨b.m0 * a.m0 + b.m1 * a.m4 + b.m2 * a.m8 + b.m3 * a.m12,
   b.m0 * a.m1 + b.m1 * a.m5 + b.m2 * a.m9 + b.m3 * a.m13,
   b.m0 * a.m2 + b.m1 * a.m6 + b.m2 * a.m10 + b.m3 * a.m14,
   b.m0 * a.m3 + b.m1 * a.m7 + b.m2 * a.m11 + b.m3 * a.m15,
   b.m4 * a.m0 + b.m5 * a.m4 + b.m6 * a.m8 + b.m7 * a.m12,
   b.m4 * a.m1 + b.m5 * a.m5 + b.m6 * a.m9 + b.m7 * a.m13,
   b.m4 * a.m2 + b.m5 * a.m6 + b.m6 * a.m10 + b.m7 * a.m14,
   b.m4 * a.m3 + b.m5 * a.m7 + b.m6 * a.m11 + b.m7 * a.m15,
   b.m8 * a.m0 + b.m9 * a.m4 + b.m10 * a.m8 + b.m11 * a.m12,
   b.m8 * a.m1 + b.m9 * a.m5 + b.m10 * a.m9 + b.m11 * a.m13,
   b.m8 * a.m2 + b.m9 * a.m6 + b.m10 * a.m10 + b.m11 * a.m14,
   b.m8 * a.m3 + b.m9 * a.m7 + b.m10 * a.m11 + b.m11 * a.m15,
   b.m12 * a.m0 + b.m13 * a.m4 + b.m14 * a.m8 + b.m15 * a.m12,
   b.m12 * a.m1 + b.m13 * a.m5 + b.m14 * a.m9 + b.m15 * a.m13,
   b.m12 * a.m2 + b.m13 * a.m6 + b.m14 * a.m10 + b.m15 * a.m14,
   b.m12 * a.m3 + b.m13 * a.m7 + b.m14 * a.m11 + b.m15 * a.m15⟩

/-- The determinant computed inside gl-matrix `mat4.invert`. -/
def mat4Det (a : Mat4) : ℚ :=
  let b00 := a.m0 * a.m5 - a.m1 * a.m4
  let b01 := a.m0 * a.m6 - a.m2 * a.m4
  let b02 := a.m0 * a.m7 - a.m3 * a.m4
  let b03 := a.m1 * a.m6 - a.m2 * a.m5
  let b04 := a.m1 * a.m7 - a.m3 * a.m5
  let b05 := a.m2 * a.m7 - a.m3 * a.m6
  let b06 := a.m8 * a.m13 - a.m9 * a.m12
  let b07 := a.m8 * a.m14 - a.m10 * a.m12
  let b08 := a.m8 * a.m15 - a.m11 * a.m12
  let b09 := a.m9 * a.m14 - a.m10 * a.m13
  let b10 := a.m9 * a.m15 - a.m11 * a.m13
  let b11 := a.m10 * a.m15 - a.m11 * a.m14
  b00 * b11 - b01 * b10 + b02 * b09 + b03 * b08 - b04 * b07 + b05 * b06

/-- The matrix written by gl-matrix `mat4.invert` on success
(adjugate entries scaled by the reciprocal determinant; the local
`det` of the source is the same expression as `mat4Det a`). -/
def mat4InvertFormula (a : Mat4) : Mat4 :=
  let b00 := a.m0 * a.m5 - a.m1 * a.m4
  let b01 := a.m0 * a.m6 - a.m2 * a.m4
  let b02 := a.m0 * a.m7 - a.m3 * a.m4
  let b03 := a.m1 * a.m6 - a.m2 * a.m5
  let b04 := a.m1 * a.m7 - a.m3 * a.m5
  let b05 := a.m2 * a.m7 - a.m3 * a.m6
  let b06 := a.m8 * a.m13 - a.m9 * a.m12
  let b07 := a.m8 * a.m14 - a.m10 * a.m12
  let b08 := a.m8 * a.m15 - a.m11 * a.m12
  let b09 := a.m9 * a.m14 - a.m10 * a.m13
  let b10 := a.m9 * a.m15 - a.m11 * a.m13
  let b11 := a.m10 * a.m15 - a.m11 * a.m14
  let det := mat4Det a
  ⟨(a.m5 * b11 - a.m6 * b10 + a.m7 * b09) / det,
   (a.m2 * b10 - a.m1 * b11 - a.m3 * b09) / det,
   (a.m13 * b05 - a.m14 * b04 + a.m15 * b03) / det,
   (a.m10 * b04 - a.m9 * b05 - a.m11 * b03) / det,
   (a.m6 * b08 - a.m4 * b11 - a.m7 * b07) / det,
   (a.m0 * b11 - a.m2 * b08 + a.m3 * b07) / det,
   (a.m14 * b02 - a.m12 * b05 - a.m15 * b01) / det,
   (a.m8 * b05 - a.m10 * b02 + a.m11 * b01) / det,
   (a.m4 * b10 - a.m5 * b08 + a.m7 * b06) / det,
   (a.m1 * b08 - a.m0 * b10 - a.m3 * b06) / det,
   (a.m12 * b04 - a.m13 * b02 + a.m15 * b00) / det,
   (a.m9 * b02 - a.m8 * b04 - a.m11 * b00) / det,
   (a.m5 * b07 - a.m4 * b09 - a.m6 * b06) / det,
   (a.m0 * b09 - a.m1 * b07 + a.m2 * b06) / det,
   (a.m13 * b01 - a.m12 * b03 - a.m14 * b00) / det,
   (a.m8 * b03 - a.m9 * b01 + a.m10 * b00) / det⟩

/-- gl-matrix `mat4.invert(out, a)`: `none` (JS `null`, `out` left
untouched) when the determinant is zero, otherwise the inverse. -/
def mat4Invert (a : Mat4) : Option Mat4 :=
  if mat4Det a = 0 then none else some (mat4InvertFormula a)

/-- gl-matrix `vec3.transformMat4(out, a, m)`: applies `m` to
`(a.x, a.y, a.z, 1)` and divides by the resulting `w` coordinate,
with the JS guard `w = w || 1.0`. -/
def vec3TransformMat4 (a : Vec3) (m : Mat4) : Vec3 :=
  let w := m.m3 * a.x + m.m7 * a.y + m.m11 * a.z + m.m15
  let w1 := if w = 0 then 1 else w
  ⟨(m.m0 * a.x + m.m4 * a.y + m.m8 * a.z + m.m12) / w1,
   (m.m1 * a.x + m.m5 * a.y + m.m9 * a.z + m.m13) / w1,
   (m.m2 * a.x + m.m6 * a.y + m.m10 * a.z + m.m14) / w1⟩

/-- `ImageDisplay.uiToImageCoordinates`, as a function of the current
`imageMatrix`.  The source allocates `invImageMatrix = mat4.create()`
(the identity) and calls `mat4.invert` into it; on a singular matrix
`invert` returns null without writing, so the identity is used. -/
def uiToImageCoordinates (imageMatrix : Mat4) (uiCoord : Vec3) : Vec3 :=
  vec3TransformMat4 uiCoord ((mat4Invert imageMatrix).getD idMat)

/-- `ImageDisplay.uiToMeshCoordinates`, as a function of the window
manager's canvas client size and projection matrix.  The source builds
the clip vector from `uiCoord[0]` in both components (verbatim). -/
def uiToMeshCoordinates (clientWidth clientHeight : ℚ) (projectionMatrix : Mat4)
    (uiCoord : Vec3) : Vec3 :=
  let clipCoords : Vec3 := ⟨uiCoord.x / clientWidth, uiCoord.x / clientHeight, 0⟩
  vec3TransformMat4 clipCoords ((mat4Invert projectionMatrix).getD idMat)

/-- Modelled from the spec: the view-mode enumeration {Texture, Mesh},
`DisplayType` of `src/slate.ts`, which is not under src/. -/
inductive DisplayType where
  | Texture : DisplayType
  | Mesh : DisplayType
deriving DecidableEq, Repr

/-- One JS typed array: an allocation identifier plus byte contents. -/
@[ext] structure Arr where
  id : ℕ
  data : List ℕ
deriving DecidableEq, Repr

/-- Default used for out-of-range history reads (never reached on the
index ranges the code uses). -/
def dummyArr : Arr := ⟨0, []⟩

/-- The state of an `ImageDisplay` (the fields the covered claims
observe), plus the fresh allocation counter `nextId`. -/
structure Display where
  width : ℕ
  height : ℕ
  buffer : Arr
  history : List Arr
  historyIndex : ℕ
  updated : Bool
  imageMatrix : Mat4
  meshMatrix : Mat4
  displayType : DisplayType
  nextId : ℕ
deriving DecidableEq, Repr

/-- The `ImageDisplay` constructor: an opaque (255-filled) buffer of
`width * height * 4` bytes, empty history, cursor 0, `updated` false,
both matrices `mat4.create()`. -/
def init (dt : DisplayType) (w h : ℕ) : Display :=
  { width := w
    height := h
    buffer := ⟨0, List.replicate (w * h * 4) 255⟩
    history := []
    historyIndex := 0
    updated := false
    imageMatrix := idMat
    meshMatrix := idMat
    displayType := dt
    nextId := 1 }

/-- `ImageDisplay.checkpoint`: `history.length = historyIndex`
truncates the snapshot list to the cursor (the cursor never exceeds
the length, see `stateInv_run`), then a deep copy of the live buffer
is pushed and the cursor advanced. -/
def checkpoint (s : Display) : Display :=
  { s with
    history := s.history.take s.historyIndex ++ [⟨s.nextId, s.buffer.data⟩]
    historyIndex := s.historyIndex + 1
    nextId := s.nextId + 1 }

/-- JS array index assignment `l[i] = a` for `i ≤ l.length`: in-range
writes update the slot, writing one past the end appends.  (`undo`
only ever writes at an index ≤ length, thanks to its clamp.) -/
def jsSetIdx (l : List Arr) (i : ℕ) (a : Arr) : List Arr :=
  if i < l.length then l.set i a else l ++ [a]

/-- `ImageDisplay.undo`: clamp the cursor to the history length, and
if it is positive, save a deep copy of the live buffer into the slot
at the cursor, decrement, and alias the live buffer to the snapshot
now at the cursor, marking the display updated. -/
def undo (s : Display) : Display :=
  let i := if s.historyIndex > s.history.length then s.history.length else s.historyIndex
  if 0 < i then
    let h := jsSetIdx s.history i ⟨s.nextId, s.buffer.data⟩
    { s with
      history := h
      historyIndex := i - 1
      buffer := h.getD (i - 1) dummyArr
      updated := true
      nextId := s.nextId + 1 }
  else
    { s with historyIndex := i }

/-- `ImageDisplay.redo`: if the cursor is strictly below
`history.length - 1`, advance it and alias the live buffer to the
snapshot there, marking the display updated; otherwise do nothing. -/
def redo (s : Display) : Display :=
  if s.historyIndex < s.history.length - 1 then
    { s with
      historyIndex := s.historyIndex + 1
      buffer := s.history.getD (s.historyIndex + 1) dummyArr
      updated := true }
  else
    s

/-- In-place overwrite of the live buffer's contents (what a brush
stroke does between history calls).  Mutation is by reference: every
history slot aliasing the live buffer changes with it. -/
def setBufferContents (bs : List ℕ) (s : Display) : Display :=
  { s with
    buffer := ⟨s.buffer.id, bs⟩
    history := s.history.map fun a => if a.id = s.buffer.id then ⟨a.id, bs⟩ else a }

/-- The operations of the history claims: the three history methods
plus in-place painting of the live buffer. -/
inductive Op where
  | checkpoint : Op
  | undo : Op
  | redo : Op
  | setBuf : List ℕ → Op
deriving DecidableEq, Repr

/-- Apply one operation. -/
def applyOp (s : Display) (op : Op) : Display :=
  match op with
  | Op.checkpoint => checkpoint s
  | Op.undo => undo s
  | Op.redo => redo s
  | Op.setBuf bs => setBufferContents bs s

/-- Run a sequence of operations left to right. -/
def run (ops : List Op) (s : Display) : Display :=
  ops.foldl applyOp s

/-- `ImageDisplay.draw`: if `updated` is set, `_swapBuffer` uploads
the pixel buffer to the GPU texture and the flag is cleared; then the
draw call dispatches on the display type (no state change).  The
boolean result records whether an upload happened. -/
def draw (s : Display) : Display × Bool :=
  (if s.updated then { s with updated := false } else s, s.updated)

/-- The `imageMatrix` written by `ImageDisplay.resetImageTransform`:
identity translated so the image is centered in the canvas. -/
def resetMatrix (canvasW canvasH imgW imgH : ℚ) : Mat4 :=
  mat4Translate idMat ⟨canvasW / 2 - imgW / 2, canvasH / 2 - imgH / 2, 0⟩

/-- `ImageDisplay.resetImageTransform`: recenters `imageMatrix`,
resets `meshMatrix` to identity translated by (0, 0, -6), and clears
the history. -/
def resetImageTransform (canvasW canvasH : ℚ) (s : Display) : Display :=
  { s with
    imageMatrix := resetMatrix canvasW canvasH s.width s.height
    meshMatrix := mat4Translate idMat ⟨0, 0, -6⟩
    history := []
    historyIndex := 0 }

/-- The body of the image `load` event callback in `ImageDisplay.load`
(the successful-decode continuation): replace buffer, width and height
from the decoded `ImageData`, mark updated, reset the transforms. -/
def loadApply (canvasW canvasH : ℚ) (w h : ℕ) (data : List ℕ) (s : Display) : Display :=
  resetImageTransform canvasW canvasH
    { s with
      buffer := ⟨s.nextId, data⟩
      nextId := s.nextId + 1
      width := w
      height := h
      updated := true }

/-- Modelled from the spec: `SCROLL_SCALE` lives in `src/constants.ts`
which is not under src/; the spec says only that the zoom "computes a
scale factor from wheel delta", so the constant is kept as an explicit
positive parameter `scrollScale`. -/
def scaleFactor (scrollScale deltaY : ℚ) : ℚ :=
  if deltaY < 0 then 1 / (-deltaY * scrollScale) else deltaY * scrollScale

/-- The Texture-mode branch of `ImageDisplay.handleWheel`: zoom about
the image-space position of the mouse, by translate-scale-translate
composed onto the current matrix. -/
def wheelImageMatrix (scrollScale deltaY : ℚ) (mouse : Vec3) (m : Mat4) : Mat4 :=
  let s := scaleFactor scrollScale deltaY
  let imageMousePos := uiToImageCoordinates m mouse
  mat4Translate (mat4Scale (mat4Translate m imageMousePos) ⟨s, s, 1⟩)
    (vec3Negate imageMousePos)

/-- The Mesh-mode branch of `ImageDisplay.handleWheel`. -/
def wheelMeshMatrix (scrollScale deltaY clientWidth clientHeight : ℚ)
    (projectionMatrix : Mat4) (m : Mat4) : Mat4 :=
  let s := scaleFactor scrollScale deltaY
  let meshMiddlePos := uiToMeshCoordinates clientWidth clientHeight projectionMatrix ⟨0, 0, 0⟩
  mat4Translate (mat4Scale (mat4Translate m meshMiddlePos) ⟨s, s, s⟩)
    (vec3Negate meshMiddlePos)

/-- `ImageDisplay.handleWheel`: a guard on `deltaY != 0`, then a
zoom of the matrix of the active view mode.  `mouse` stands for the
module-level `eventState.lastMousePosition`; canvas size and
projection matrix belong to the external window manager. -/
def handleWheel (scrollScale : ℚ) (mouse : Vec3) (clientWidth clientHeight : ℚ)
    (projectionMatrix : Mat4) (deltaY : ℚ) (s : Display) : Display :=
  if deltaY ≠ 0 then
    match s.displayType with
    | DisplayType.Texture =>
        { s with imageMatrix := wheelImageMatrix scrollScale deltaY mouse s.imageMatrix }
    | DisplayType.Mesh =>
        let m2 := wheelMeshMatrix scrollScale deltaY clientWidth clientHeight
          projectionMatrix s.meshMatrix
        { s with meshMatrix := m2 }
  else
    s

/-- The Texture-mode branch of `ImageDisplay.handlePanMove`: translate
by the difference of the image-space positions of the new pointer
position and of `eventState.lastMousePosition`. -/
def panImageMatrix (position lastMousePosition : Vec3) (m : Mat4) : Mat4 :=
  mat4Translate m
    (vec3Sub (uiToImageCoordinates m position) (uiToImageCoordinates m lastMousePosition))

/-- The values the program can ever store in `imageMatrix`: identity
from the constructor, the recentering of `resetImageTransform`, and
the wheel-zoom and pan-move updates. -/
inductive ReachableImageMatrix : Mat4 → Prop
  | init : ReachableImageMatrix idMat
  | reset (canvasW canvasH imgW imgH : ℚ) :
      ReachableImageMatrix (resetMatrix canvasW canvasH imgW imgH)
  | wheel (scrollScale deltaY : ℚ) (mouse : Vec3) {m : Mat4} :
      ReachableImageMatrix m →
      ReachableImageMatrix (wheelImageMatrix scrollScale deltaY mouse m)
  | pan (position lastMousePosition : Vec3) {m : Mat4} :
      ReachableImageMatrix m →
      ReachableImageMatrix (panImageMatrix position lastMousePosition m)

/-! ## History invariants -/

/-- State invariant: the cursor never exceeds the history length, and
every allocation identifier in the state is below the counter. -/
def StateInv (s : Display) : Prop :=
  s.historyIndex ≤ s.history.length ∧
  s.buffer.id < s.nextId ∧
  ∀ a ∈ s.history, a.id < s.nextId

lemma jsSetIdx_length (l : List Arr) (i : ℕ) (a : Arr) (h : i ≤ l.length) :
    (jsSetIdx l i a).length = if i = l.length then l.length + 1 else l.length := by
  unfold jsSetIdx
  rcases lt_or_eq_of_le h with h1 | h1
  · simp [if_pos h1, h1.ne]
  · simp [h1]

lemma mem_jsSetIdx (l : List Arr) (i : ℕ) (a x : Arr) (hx : x ∈ jsSetIdx l i a) :
    x ∈ l ∨ x = a := by
  unfold jsSetIdx at hx
  split at hx
  · exact List.mem_or_eq_of_mem_set hx
  · rcases List.mem_append.1 hx with h | h
    · exact Or.inl h
    · exact Or.inr (List.mem_singleton.1 h)

lemma getD_mem (l : List Arr) (i : ℕ) (d : Arr) (h : i < l.length) :
    l.getD i d ∈ l := by
  rw [List.getD_eq_getElem l d h]
  exact l.getElem_mem h

lemma stateInv_init (dt : DisplayType) (w h : ℕ) : StateInv (init dt w h) := by
  refine ⟨by simp [init], by simp [init], ?_⟩
  intro a ha
  simp [init] at ha

lemma stateInv_checkpoint {s : Display} (hs : StateInv s) : StateInv (checkpoint s) := by
  obtain ⟨h1, h2, h3⟩ := hs
  refine ⟨?_, ?_, ?_⟩
  · simp [checkpoint]
    omega
  · simp [checkpoint]
    omega
  · intro a ha
    simp only [checkpoint] at ha ⊢
    rcases List.mem_append.1 ha with h | h
    · exact Nat.lt_succ_of_lt (h3 a (List.mem_of_mem_take h))
    · rcases List.mem_singleton.1 h with rfl
      exact Nat.lt_succ_self _

lemma stateInv_undo {s : Display} (hs : StateInv s) : StateInv (undo s) := by
  obtain ⟨h1, h2, h3⟩ := hs
  unfold undo
  simp only [gt_iff_lt, if_neg (Nat.not_lt.2 h1)]
  by_cases h0 : 0 < s.historyIndex
  · have hmem : ∀ x ∈ jsSetIdx s.history s.historyIndex ⟨s.nextId, s.buffer.data⟩,
        x.id < s.nextId + 1 := by
      intro x hx
      rcases mem_jsSetIdx _ _ _ _ hx with h | h
      · exact Nat.lt_succ_of_lt (h3 x h)
      · rw [h]
        exact Nat.lt_succ_self _
    have hlen : (jsSetIdx s.history s.historyIndex ⟨s.nextId, s.buffer.data⟩).length =
        if s.historyIndex = s.history.length then s.history.length + 1
        else s.history.length := jsSetIdx_length _ _ _ h1
    refine if_pos h0 ▸ ⟨?_, ?_, ?_⟩
    · simp only [hlen]
      split <;> omega
    · have hidx : s.historyIndex - 1 <
          (jsSetIdx s.history s.historyIndex ⟨s.nextId, s.buffer.data⟩).length := by
        rw [hlen]; split <;> omega
      exact hmem _ (getD_mem _ _ _ hidx)
    · exact hmem
  · rw [if_neg h0]
    exact ⟨h1, h2, h3⟩

lemma stateInv_redo {s : Display} (hs : StateInv s) : StateInv (redo s) := by
  obtain ⟨h1, h2, h3⟩ := hs
  unfold redo
  by_cases hc : s.historyIndex < s.history.length - 1
  · rw [if_pos hc]
    refine ⟨by simp; omega, ?_, h3⟩
    have hidx : s.historyIndex + 1 < s.history.length := by omega
    exact h3 _ (getD_mem _ _ _ hidx)
  · rw [if_neg hc]
    exact ⟨h1, h2, h3⟩

lemma stateInv_setBufferContents {s : Display} (bs : List ℕ) (hs : StateInv s) :
    StateInv (setBufferContents bs s) := by
  obtain ⟨h1, h2, h3⟩ := hs
  refine ⟨by simpa [setBufferContents] using h1, by simpa [setBufferContents] using h2, ?_⟩
  intro a ha
  simp only [setBufferContents, List.mem_map] at ha
  obtain ⟨b, hb, hab⟩ := ha
  by_cases hid : b.id = s.buffer.id
  · rw [if_pos hid] at hab
    rw [← hab]
    simpa [hid] using h3 b hb
  · rw [if_neg hid] at hab
    rw [← hab]
    exact h3 b hb

lemma stateInv_applyOp {s : Display} (op : Op) (hs : StateInv s) : StateInv (applyOp s op) := by
  cases op with
  | checkpoint => exact stateInv_checkpoint hs
  | undo => exact stateInv_undo hs
  | redo => exact stateInv_redo hs
  | setBuf bs => exact stateInv_setBufferContents bs hs

lemma stateInv_run (ops : List Op) {s : Display} (hs : StateInv s) : StateInv (run ops s) := by
  induction ops generalizing s with
  | nil => exact hs
  | cons op ops ih => exact ih (stateInv_applyOp op hs)

/-! ## Claim theorems: frame effects and error handling -/

/-- C10: for every state and in either view mode, `handleWheel` with
`deltaY = 0` is a complete no-op: the returned state (image matrix,
mesh matrix, pixel buffer, history and updated flag included) is the
input state. -/
theorem wheelZeroDeltaNoOp (scrollScale : ℚ) (mouse : Vec3)
    (clientWidth clientHeight : ℚ) (projectionMatrix : Mat4) (s : Display) :
    handleWheel scrollScale mouse clientWidth clientHeight projectionMatrix 0 s = s := by
  simp [handleWheel]

/-- C9: `draw` uploads the pixel buffer (the boolean component) if and
only if the `updated` flag is set, the flag is false afterwards, only
the flag changes, and a second consecutive `draw` never uploads. -/
theorem drawUploadsIffUpdated (s : Display) :
    (draw s).2 = s.updated ∧
    (draw s).1 = { s with updated := false } ∧
    (draw (draw s).1).2 = false := by
  obtain ⟨w, h, b, hist, hidx, u, im, mm, dt, ni⟩ := s
  cases u <;> simp [draw]

/-- C8: starting from the initial state (empty history, cursor 0),
after any sequence of checkpoint / undo / redo calls (with arbitrary
in-place painting of the buffer interleaved), the cursor satisfies
`0 ≤ historyIndex ≤ history.length`. -/
theorem historyCursorInvariant (dt : DisplayType) (w h : ℕ) (ops : List Op) :
    0 ≤ (run ops (init dt w h)).historyIndex ∧
    (run ops (init dt w h)).historyIndex ≤ (run ops (init dt w h)).history.length :=
  ⟨Nat.zero_le _, (stateInv_run ops (stateInv_init dt w h)).1⟩

/-- C4: `undo` at cursor 0 and `redo` with the cursor at or beyond the
last snapshot are silent no-ops returning the state unchanged, and
every successful `undo` or `redo` sets the `updated` flag. -/
theorem historyOutOfRangeNoOps (s : Display) :
    (s.historyIndex = 0 → undo s = s) ∧
    (s.history.length - 1 ≤ s.historyIndex → redo s = s) ∧
    (0 < s.historyIndex → 0 < s.history.length → (undo s).updated = true) ∧
    (s.historyIndex < s.history.length - 1 → (redo s).updated = true) := by
  refine ⟨?_, ?_, ?_, ?_⟩
  · intro h0
    unfold undo
    have : ¬ s.historyIndex > s.history.length := by omega
    rw [if_neg this, if_neg (by omega)]
  · intro hle
    unfold redo
    rw [if_neg (by omega)]
  · intro h0 hlen
    unfold undo
    by_cases hc : s.historyIndex > s.history.length
    · rw [if_pos hc, if_pos hlen]
    · rw [if_neg hc, if_pos h0]
  · intro hc
    unfold redo
    rw [if_pos hc]

/-- Witness for C4 at concrete states. -/
theorem historyOutOfRangeNoOps_witness :
    (undo (init DisplayType.Texture 1 1) = init DisplayType.Texture 1 1) ∧
    (redo (init DisplayType.Texture 1 1) = init DisplayType.Texture 1 1) ∧
    ((undo (checkpoint (init DisplayType.Texture 1 1))).updated = true) ∧
    ((redo { init DisplayType.Texture 1 1 with
        history := [⟨1, [0]⟩, ⟨2, [1]⟩] }).updated = true) := by
  refine ⟨(historyOutOfRangeNoOps _).1 (by decide), (historyOutOfRangeNoOps _).2.1 (by decide),
    (historyOutOfRangeNoOps _).2.2.1 (by decide) (by decide),
    (historyOutOfRangeNoOps _).2.2.2 (by decide)⟩

/-- C6 counterexample: on a singular `imageMatrix` (here the zero
matrix) the conversion does not return a sentinel failure value: the
`null` result of `mat4.invert` is ignored, the freshly created
identity is used as the inverse, and the UI coordinate itself comes
back as an ordinary image coordinate, indistinguishable from a
successful conversion under the identity matrix. -/
theorem singularMatrixSentinelCounterexample :
    mat4Invert ⟨0,0,0,0, 0,0,0,0, 0,0,0,0, 0,0,0,0⟩ = none ∧
    uiToImageCoordinates ⟨0,0,0,0, 0,0,0,0, 0,0,0,0, 0,0,0,0⟩ ⟨3, 4, 0⟩ = ⟨3, 4, 0⟩ ∧
    uiToImageCoordinates ⟨0,0,0,0, 0,0,0,0, 0,0,0,0, 0,0,0,0⟩ ⟨3, 4, 0⟩ =
      uiToImageCoordinates idMat ⟨3, 4, 0⟩ := by
  refine ⟨?_, ?_, ?_⟩ <;>
    norm_num [uiToImageCoordinates, mat4Invert, mat4Det, mat4InvertFormula,
      vec3TransformMat4, idMat, Vec3.ext_iff]

/-- C6 amended: if `imageMatrix` is singular, `uiToImageCoordinates`
does not crash but also returns no failure value: `mat4.invert`
leaves its freshly created output at the identity, so the function
returns the UI coordinate unchanged, as an ordinary coordinate. -/
theorem singularMatrixIdentityFallback (m : Mat4) (u : Vec3) (h : mat4Det m = 0) :
    uiToImageCoordinates m u = u := by
  unfold uiToImageCoordinates mat4Invert
  rw [if_pos h]
  unfold vec3TransformMat4 idMat
  ext <;> simp

/-- Witness for C6 amended at the zero matrix. -/
theorem singularMatrixIdentityFallback_witness :
    mat4Det ⟨0,0,0,0, 0,0,0,0, 0,0,0,0, 0,0,0,0⟩ = 0 ∧
    uiToImageCoordinates ⟨0,0,0,0, 0,0,0,0, 0,0,0,0, 0,0,0,0⟩ ⟨5, 7, 2⟩ = ⟨5, 7, 2⟩ :=
  ⟨by norm_num [mat4Det], singularMatrixIdentityFallback _ _ (by norm_num [mat4Det])⟩

/-- C7: the successful load continuation replaces buffer, width and
height together (the buffer invariant `length = width * height * 4`
holds of the result, given that the external decoder hands over an
`ImageData` satisfying it), resets `imageMatrix` to the centered
translate of the identity and `meshMatrix` to the identity translated
by (0, 0, -6), clears the history with cursor 0, and sets `updated`.
The replacement is atomic: a single state update produces all fields,
so no intermediate buffer/dimension mismatch is observable. -/
theorem loadReplacesStateAtomically (canvasW canvasH : ℚ) (w h : ℕ) (data : List ℕ)
    (s : Display) (hdata : data.length = w * h * 4) :
    (loadApply canvasW canvasH w h data s).buffer.data.length =
      (loadApply canvasW canvasH w h data s).width *
        (loadApply canvasW canvasH w h data s).height * 4 ∧
    (loadApply canvasW canvasH w h data s).imageMatrix =
      mat4Translate idMat ⟨canvasW / 2 - (w : ℚ) / 2, canvasH / 2 - (h : ℚ) / 2, 0⟩ ∧
    (loadApply canvasW canvasH w h data s).meshMatrix = mat4Translate idMat ⟨0, 0, -6⟩ ∧
    (loadApply canvasW canvasH w h data s).history = [] ∧
    (loadApply canvasW canvasH w h data s).historyIndex = 0 ∧
    (loadApply canvasW canvasH w h data s).updated = true := by
  refine ⟨?_, rfl, rfl, rfl, rfl, rfl⟩
  simpa [loadApply, resetImageTransform] using hdata

/-- Witness for C7 with a 2 x 3 image on a 100 x 80 canvas. -/
theorem loadReplacesStateAtomically_witness :
    (List.replicate 24 0).length = 2 * 3 * 4 ∧
    (loadApply 100 80 2 3 (List.replicate 24 0) (init DisplayType.Texture 1 1)).history = [] ∧
    (loadApply 100 80 2 3 (List.replicate 24 0) (init DisplayType.Texture 1 1)).updated = true :=
  ⟨by decide, (loadReplacesStateAtomically 100 80 2 3 _ _ (by decide)).2.2.2.1,
    (loadReplacesStateAtomically 100 80 2 3 _ _ (by decide)).2.2.2.2.2⟩

/-! ## Claim theorems: checkpoint semantics -/

lemma getD_set_self (l : List Arr) (i : ℕ) (a : Arr) (h : i < l.length) :
    (l.set i a).getD i dummyArr = a := by
  rw [List.getD_eq_getElem _ _ (by simpa using h)]
  simp

lemma getD_set_ne (l : List Arr) (i j : ℕ) (a : Arr) (h : i ≠ j) :
    (l.set i a).getD j dummyArr = l.getD j dummyArr := by
  rcases Nat.lt_or_ge j l.length with hj | hj
  · rw [List.getD_eq_getElem _ _ (by simpa using hj), List.getD_eq_getElem _ _ hj]
    exact List.getElem_set_of_ne h ..
  · rw [List.getD_eq_default _ _ (by simpa using hj), List.getD_eq_default _ _ hj]

lemma getD_take (l : List Arr) (i j : ℕ) (hij : i < j) (hj : j ≤ l.length) :
    (l.take j).getD i dummyArr = l.getD i dummyArr := by
  have hi : i < l.length := by omega
  have hit : i < (l.take j).length := by simp; omega
  rw [List.getD_eq_getElem _ _ hit, List.getD_eq_getElem _ _ hi]
  simp [List.getElem_take]

/-- C3: on any reachable state, `checkpoint` truncates the history to
exactly `historyIndex` snapshots (every snapshot at index ≥
`historyIndex` is discarded, those below are kept), appends a deep
copy of the live buffer — a distinct array (fresh allocation
identifier) with byte-for-byte equal contents — and increments the
cursor; afterwards `historyIndex = history.length`. -/
theorem checkpointTruncatesAndAppends (dt : DisplayType) (w h : ℕ) (ops : List Op)
    (s : Display) (hs : s = run ops (init dt w h)) :
    (checkpoint s).history.length = s.historyIndex + 1 ∧
    (∀ i, i < s.historyIndex →
      (checkpoint s).history.getD i dummyArr = s.history.getD i dummyArr) ∧
    (checkpoint s).history.getD s.historyIndex dummyArr = ⟨s.nextId, s.buffer.data⟩ ∧
    ((checkpoint s).history.getD s.historyIndex dummyArr).id ≠ s.buffer.id ∧
    ((checkpoint s).history.getD s.historyIndex dummyArr).data = s.buffer.data ∧
    (checkpoint s).historyIndex = s.historyIndex + 1 ∧
    (checkpoint s).historyIndex = (checkpoint s).history.length := by
  have hinv : StateInv s := hs ▸ stateInv_run ops (stateInv_init dt w h)
  obtain ⟨h1, h2, h3⟩ := hinv
  have hlentake : (s.history.take s.historyIndex).length = s.historyIndex := by
    simp
    omega
  have hlen : (checkpoint s).history.length = s.historyIndex + 1 := by
    simp [checkpoint]
    omega
  have hat : (checkpoint s).history.getD s.historyIndex dummyArr = ⟨s.nextId, s.buffer.data⟩ := by
    show ((s.history.take s.historyIndex) ++ [(⟨s.nextId, s.buffer.data⟩ : Arr)]).getD _ _ = _
    rw [List.getD_append_right _ _ _ _ (le_of_eq hlentake)]
    simp [hlentake]
  refine ⟨hlen, ?_, hat, ?_, ?_, rfl, ?_⟩
  · intro i hi
    show ((s.history.take s.historyIndex) ++ [(⟨s.nextId, s.buffer.data⟩ : Arr)]).getD _ _ = _
    rw [List.getD_append _ _ _ _ (by omega), getD_take _ _ _ hi h1]
  · rw [hat]
    exact fun hid => absurd (hid ▸ h2) (lt_irrefl _)
  · rw [hat]
  · rw [hlen]
    rfl

/-- Witness for C3 after one checkpoint and one paint. -/
theorem checkpointTruncatesAndAppends_witness :
    (checkpoint (run [Op.checkpoint, Op.setBuf [9]] (init DisplayType.Texture 1 1))).history.length
      = (run [Op.checkpoint, Op.setBuf [9]] (init DisplayType.Texture 1 1)).historyIndex + 1 ∧
    (checkpoint (run [Op.checkpoint, Op.setBuf [9]] (init DisplayType.Texture 1 1))).historyIndex
      = (checkpoint (run [Op.checkpoint, Op.setBuf [9]]
          (init DisplayType.Texture 1 1))).history.length :=
  ⟨(checkpointTruncatesAndAppends DisplayType.Texture 1 1 _ _ rfl).1,
   (checkpointTruncatesAndAppends DisplayType.Texture 1 1 _ _ rfl).2.2.2.2.2.2⟩

/-! ## Claim theorems: the three-checkpoint scenario -/

/-- C2 counterexample: checkpoint three times with the live buffer in
states A = [255,255,255,255], B = [0,0,0,255], C = [7,7,7,255]; after
calling `undo()` twice the live buffer is B, not A as claimed (the
first `undo` restores the just-saved snapshot C, so it does not change
the visible buffer). -/
theorem checkpointSequenceScenarioCounterexample :
    (undo (undo (run [Op.setBuf [255, 255, 255, 255], Op.checkpoint, Op.setBuf [0, 0, 0, 255],
        Op.checkpoint, Op.setBuf [7, 7, 7, 255], Op.checkpoint]
        (init DisplayType.Texture 1 1)))).buffer.data = [0, 0, 0, 255] ∧
    (undo (undo (run [Op.setBuf [255, 255, 255, 255], Op.checkpoint, Op.setBuf [0, 0, 0, 255],
        Op.checkpoint, Op.setBuf [7, 7, 7, 255], Op.checkpoint]
        (init DisplayType.Texture 1 1)))).buffer.data ≠ [255, 255, 255, 255] := by
  have e1 : run [Op.setBuf [255, 255, 255, 255], Op.checkpoint, Op.setBuf [0, 0, 0, 255],
      Op.checkpoint, Op.setBuf [7, 7, 7, 255], Op.checkpoint] (init DisplayType.Texture 1 1) =
      ⟨1, 1, ⟨0, [7, 7, 7, 255]⟩, [⟨1, [255, 255, 255, 255]⟩, ⟨2, [0, 0, 0, 255]⟩,
        ⟨3, [7, 7, 7, 255]⟩], 3, false, idMat, idMat, DisplayType.Texture, 4⟩ := rfl
  have e2 : undo (⟨1, 1, ⟨0, [7, 7, 7, 255]⟩, [⟨1, [255, 255, 255, 255]⟩, ⟨2, [0, 0, 0, 255]⟩,
      ⟨3, [7, 7, 7, 255]⟩], 3, false, idMat, idMat, DisplayType.Texture, 4⟩ : Display) =
      ⟨1, 1, ⟨3, [7, 7, 7, 255]⟩, [⟨1, [255, 255, 255, 255]⟩, ⟨2, [0, 0, 0, 255]⟩,
        ⟨3, [7, 7, 7, 255]⟩, ⟨4, [7, 7, 7, 255]⟩], 2, true, idMat, idMat,
        DisplayType.Texture, 5⟩ := rfl
  have e3 : undo (⟨1, 1, ⟨3, [7, 7, 7, 255]⟩, [⟨1, [255, 255, 255, 255]⟩, ⟨2, [0, 0, 0, 255]⟩,
      ⟨3, [7, 7, 7, 255]⟩, ⟨4, [7, 7, 7, 255]⟩], 2, true, idMat, idMat,
      DisplayType.Texture, 5⟩ : Display) =
      ⟨1, 1, ⟨2, [0, 0, 0, 255]⟩, [⟨1, [255, 255, 255, 255]⟩, ⟨2, [0, 0, 0, 255]⟩,
        ⟨5, [7, 7, 7, 255]⟩, ⟨4, [7, 7, 7, 255]⟩], 1, true, idMat, idMat,
        DisplayType.Texture, 6⟩ := rfl
  rw [e1, e2, e3]
  exact ⟨rfl, by decide⟩

/-- C2 amended: checkpoint three times with the live buffer in states
A, B, C respectively; then the first `undo()` leaves the buffer still
equal to C, calling `undo()` twice leaves it equal to B, a following
`redo()` leaves it equal to C (not B), a following `checkpoint()`
truncates the redo tail and appends a copy of the current buffer C (so
the history contents are exactly A, B, C again), and any subsequent
`redo()` is a no-op. -/
theorem checkpointSequenceScenarioAmended (a b c : List ℕ) :
    (undo (run [Op.setBuf a, Op.checkpoint, Op.setBuf b, Op.checkpoint, Op.setBuf c,
        Op.checkpoint] (init DisplayType.Texture 1 1))).buffer.data = c ∧
    (undo (undo (run [Op.setBuf a, Op.checkpoint, Op.setBuf b, Op.checkpoint, Op.setBuf c,
        Op.checkpoint] (init DisplayType.Texture 1 1)))).buffer.data = b ∧
    (redo (undo (undo (run [Op.setBuf a, Op.checkpoint, Op.setBuf b, Op.checkpoint, Op.setBuf c,
        Op.checkpoint] (init DisplayType.Texture 1 1))))).buffer.data = c ∧
    (checkpoint (redo (undo (undo (run [Op.setBuf a, Op.checkpoint, Op.setBuf b, Op.checkpoint,
        Op.setBuf c, Op.checkpoint] (init DisplayType.Texture 1 1)))))).history.map Arr.data
      = [a, b, c] ∧
    redo (checkpoint (redo (undo (undo (run [Op.setBuf a, Op.checkpoint, Op.setBuf b,
        Op.checkpoint, Op.setBuf c, Op.checkpoint] (init DisplayType.Texture 1 1))))))
      = checkpoint (redo (undo (undo (run [Op.setBuf a, Op.checkpoint, Op.setBuf b,
        Op.checkpoint, Op.setBuf c, Op.checkpoint] (init DisplayType.Texture 1 1))))) := by
  have e1 : run [Op.setBuf a, Op.checkpoint, Op.setBuf b, Op.checkpoint, Op.setBuf c,
      Op.checkpoint] (init DisplayType.Texture 1 1) =
      ⟨1, 1, ⟨0, c⟩, [⟨1, a⟩, ⟨2, b⟩, ⟨3, c⟩], 3, false, idMat, idMat,
        DisplayType.Texture, 4⟩ := rfl
  have e2 : undo (⟨1, 1, ⟨0, c⟩, [⟨1, a⟩, ⟨2, b⟩, ⟨3, c⟩], 3, false, idMat, idMat,
      DisplayType.Texture, 4⟩ : Display) =
      ⟨1, 1, ⟨3, c⟩, [⟨1, a⟩, ⟨2, b⟩, ⟨3, c⟩, ⟨4, c⟩], 2, true, idMat, idMat,
        DisplayType.Texture, 5⟩ := rfl
  have e3 : undo (⟨1, 1, ⟨3, c⟩, [⟨1, a⟩, ⟨2, b⟩, ⟨3, c⟩, ⟨4, c⟩], 2, true, idMat, idMat,
      DisplayType.Texture, 5⟩ : Display) =
      ⟨1, 1, ⟨2, b⟩, [⟨1, a⟩, ⟨2, b⟩, ⟨5, c⟩, ⟨4, c⟩], 1, true, idMat, idMat,
        DisplayType.Texture, 6⟩ := rfl
  have e4 : redo (⟨1, 1, ⟨2, b⟩, [⟨1, a⟩, ⟨2, b⟩, ⟨5, c⟩, ⟨4, c⟩], 1, true, idMat, idMat,
      DisplayType.Texture, 6⟩ : Display) =
      ⟨1, 1, ⟨5, c⟩, [⟨1, a⟩, ⟨2, b⟩, ⟨5, c⟩, ⟨4, c⟩], 2, true, idMat, idMat,
        DisplayType.Texture, 6⟩ := rfl
  have e5 : checkpoint (⟨1, 1, ⟨5, c⟩, [⟨1, a⟩, ⟨2, b⟩, ⟨5, c⟩, ⟨4, c⟩], 2, true, idMat, idMat,
      DisplayType.Texture, 6⟩ : Display) =
      ⟨1, 1, ⟨5, c⟩, [⟨1, a⟩, ⟨2, b⟩, ⟨6, c⟩], 3, true, idMat, idMat,
        DisplayType.Texture, 7⟩ := rfl
  rw [e1, e2, e3, e4, e5]
  exact ⟨rfl, rfl, rfl, rfl, rfl⟩

/-! ## Claim theorems: the undo/redo round trip -/

lemma jsSetIdx_getD_self (l : List Arr) (i : ℕ) (a : Arr) (h : i ≤ l.length) :
    (jsSetIdx l i a).getD i dummyArr = a := by
  unfold jsSetIdx
  rcases lt_or_eq_of_le h with hlt | heq
  · rw [if_pos hlt]
    exact getD_set_self l i a hlt
  · rw [if_neg (by omega), heq, List.getD_append_right _ _ _ _ (le_refl _)]
    simp

lemma jsSetIdx_getD_ne (l : List Arr) (i : ℕ) (a : Arr) (j : ℕ) (h : i ≤ l.length)
    (hne : j ≠ i) : (jsSetIdx l i a).getD j dummyArr = l.getD j dummyArr := by
  unfold jsSetIdx
  rcases lt_or_eq_of_le h with hlt | heq
  · rw [if_pos hlt]
    exact getD_set_ne l i j a (fun hh => hne hh.symm)
  · rw [if_neg (by omega)]
    rcases Nat.lt_or_ge j l.length with hj | hj
    · exact List.getD_append _ _ _ _ hj
    · rw [List.getD_eq_default _ _ (by simp; omega), List.getD_eq_default _ _ hj]

/-- What one successful `undo` does to each observable component. -/
lemma undo_spec (s : Display) (h0 : 0 < s.historyIndex)
    (h1 : s.historyIndex ≤ s.history.length) :
    (undo s).historyIndex = s.historyIndex - 1 ∧
    (undo s).history.length =
      (if s.historyIndex = s.history.length then s.history.length + 1
       else s.history.length) ∧
    ((undo s).history.getD s.historyIndex dummyArr).data = s.buffer.data ∧
    (∀ j, j ≠ s.historyIndex →
      (undo s).history.getD j dummyArr = s.history.getD j dummyArr) ∧
    (undo s).buffer = s.history.getD (s.historyIndex - 1) dummyArr := by
  have hget : ∀ j, j ≠ s.historyIndex →
      (jsSetIdx s.history s.historyIndex ⟨s.nextId, s.buffer.data⟩).getD j dummyArr =
        s.history.getD j dummyArr :=
    fun j hj => jsSetIdx_getD_ne s.history s.historyIndex _ j h1 hj
  have hself : (jsSetIdx s.history s.historyIndex ⟨s.nextId, s.buffer.data⟩).getD
      s.historyIndex dummyArr = ⟨s.nextId, s.buffer.data⟩ :=
    jsSetIdx_getD_self s.history s.historyIndex _ h1
  unfold undo
  rw [if_neg (by omega : ¬ s.historyIndex > s.history.length), if_pos h0]
  refine ⟨rfl, jsSetIdx_length _ _ _ h1, by rw [hself], hget, ?_⟩
  show (jsSetIdx s.history s.historyIndex ⟨s.nextId, s.buffer.data⟩).getD
    (s.historyIndex - 1) dummyArr = _
  rw [hget _ (by omega)]

/-- Fully undoing from a state with cursor `k ≤ history.length` ends
at cursor 0, and leaves, in history slots 1..k, the buffer contents
that were live at cursors k..1 on the way down; slots beyond k are
untouched. -/
lemma undo_descent : ∀ (k : ℕ) (s : Display), s.historyIndex = k → k ≤ s.history.length →
    (undo^[k] s).historyIndex = 0 ∧
    (undo^[k] s).history.length =
      (if k = s.history.length ∧ 0 < k then s.history.length + 1
       else s.history.length) ∧
    (∀ i, 1 ≤ i → i ≤ k →
      ((undo^[k] s).history.getD i dummyArr).data = (undo^[k - i] s).buffer.data) ∧
    (∀ j, k < j → (undo^[k] s).history.getD j dummyArr = s.history.getD j dummyArr) := by
  intro k
  induction k with
  | zero =>
    intro s hk hle
    refine ⟨by simpa using hk, by simp, ?_, fun j hj => by simp⟩
    intro i hi1 hi2
    omega
  | succ k ih =>
    intro s hk hle
    have h0 : 0 < s.historyIndex := by omega
    obtain ⟨u1, u2, u3, u4, u5⟩ := undo_spec s h0 (by omega)
    have hk1 : (undo s).historyIndex = k := by omega
    have hlen1 : k ≤ (undo s).history.length := by
      rw [u2]; split <;> omega
    obtain ⟨i1, i2, i3, i4⟩ := ih (undo s) hk1 hlen1
    rw [Function.iterate_succ_apply]
    refine ⟨i1, ?_, ?_, ?_⟩
    · rw [i2, u2]
      split_ifs <;> omega
    · intro i hi1 hi2
      rcases Nat.lt_or_ge i (k + 1) with hik | hik
      · rw [i3 i hi1 (by omega)]
        have harr : undo^[k - i] (undo s) = undo^[k + 1 - i] s := by
          rw [← Function.iterate_succ_apply]
          congr 1
          omega
        rw [harr]
      · have hieq : i = k + 1 := by omega
        subst hieq
        rw [i4 _ (by omega)]
        have : k + 1 - (k + 1) = 0 := by omega
        rw [this, Function.iterate_zero_apply, ← hk]
        exact hk ▸ u3
    · intro j hj
      rw [i4 j (by omega), u4 j (by omega)]

/-- What one successful `redo` does. -/
lemma redo_spec (s : Display) (h : s.historyIndex < s.history.length - 1) :
    redo s =
      { s with
        historyIndex := s.historyIndex + 1
        buffer := s.history.getD (s.historyIndex + 1) dummyArr
        updated := true } := by
  unfold redo
  rw [if_pos h]

/-- Redoing `i` times from a state at cursor 0 moves the cursor to `i`
and restores the snapshot stored at slot `i`, without touching the
history. -/
lemma redo_ascent : ∀ (i : ℕ) (t : Display), t.historyIndex = 0 → i < t.history.length →
    (redo^[i] t).historyIndex = i ∧
    (redo^[i] t).history = t.history ∧
    (redo^[i] t).buffer = (if i = 0 then t.buffer else t.history.getD i dummyArr) := by
  intro i
  induction i with
  | zero =>
    intro t h0 hlen
    exact ⟨by simpa using h0, rfl, by simp⟩
  | succ i ih =>
    intro t h0 hlen
    obtain ⟨a1, a2, a3⟩ := ih t h0 (by omega)
    have hguard : (redo^[i] t).historyIndex < (redo^[i] t).history.length - 1 := by
      rw [a1, a2]
      omega
    rw [Function.iterate_succ_apply', redo_spec _ hguard]
    refine ⟨by simp [a1], by simp [a2], by simp [a1, a2]⟩

/-- C1: for every sequence of checkpoint / undo / redo calls (with
arbitrary in-place painting interleaved) from a freshly constructed
surface, undoing `k` times (where `k` is the resulting cursor) brings
the cursor to 0, and each of the following `i ≤ k` redos lands on
cursor `i` with the live buffer byte-for-byte equal to the live buffer
that was observed at cursor `i` during the undos. -/
theorem checkpointUndoRedoRoundTrip (dt : DisplayType) (w h : ℕ) (ops : List Op)
    (s : Display) (hs : s = run ops (init dt w h)) (k : ℕ) (hk : k = s.historyIndex)
    (i : ℕ) (hi : i ≤ k) :
    (undo^[k] s).historyIndex = 0 ∧
    (redo^[i] (undo^[k] s)).historyIndex = i ∧
    (redo^[i] (undo^[k] s)).buffer.data = (undo^[k - i] s).buffer.data := by
  have hinv := stateInv_run ops (stateInv_init dt w h)
  rw [← hs] at hinv
  have hle : k ≤ s.history.length := hk ▸ hinv.1
  obtain ⟨d1, d2, d3, d4⟩ := undo_descent k s hk.symm hle
  rcases Nat.eq_zero_or_pos k with hk0 | hkpos
  · subst hk0
    have hi0 : i = 0 := by omega
    subst hi0
    simp only [Function.iterate_zero_apply]
    exact ⟨by simpa using d1, by simpa using d1, rfl⟩
  · have hlen2 : i < (undo^[k] s).history.length := by
      rw [d2]; split <;> omega
    obtain ⟨a1, a2, a3⟩ := redo_ascent i (undo^[k] s) d1 hlen2
    refine ⟨d1, a1, ?_⟩
    rcases Nat.eq_zero_or_pos i with hi0 | hipos
    · subst hi0
      rw [a3, if_pos rfl, Nat.sub_zero]
    · rw [a3, if_neg (by omega)]
      exact d3 i hipos hi

/-- Witness for C1: checkpoint, paint, checkpoint, then undo twice and
redo back. -/
theorem checkpointUndoRedoRoundTrip_witness :
    (undo^[2] (run [Op.checkpoint, Op.setBuf [9], Op.checkpoint]
      (init DisplayType.Texture 1 1))).historyIndex = 0 ∧
    (redo^[1] (undo^[2] (run [Op.checkpoint, Op.setBuf [9], Op.checkpoint]
      (init DisplayType.Texture 1 1)))).historyIndex = 1 ∧
    (redo^[1] (undo^[2] (run [Op.checkpoint, Op.setBuf [9], Op.checkpoint]
      (init DisplayType.Texture 1 1)))).buffer.data =
      (undo^[2 - 1] (run [Op.checkpoint, Op.setBuf [9], Op.checkpoint]
        (init DisplayType.Texture 1 1))).buffer.data :=
  checkpointUndoRedoRoundTrip DisplayType.Texture 1 1 _ _ rfl 2 (by decide) 1 (by decide)

/-! ## Claim theorems: zoom pivot invariance -/

lemma mat4Mul_assoc (a b c : Mat4) :
    mat4Mul (mat4Mul a b) c = mat4Mul a (mat4Mul b c) := by
  ext <;> simp [mat4Mul] <;> ring

lemma mat4Mul_id_left (a : Mat4) : mat4Mul idMat a = a := by
  ext <;> simp [mat4Mul, idMat]

lemma mat4Mul_id_right (a : Mat4) : mat4Mul a idMat = a := by
  ext <;> simp [mat4Mul, idMat]

/-- The zoom-about-a-pivot matrix `T(p) * S(c, c, 1) * T(-p)`. -/
def zoomMat (p : Vec3) (c : ℚ) : Mat4 :=
  ⟨c, 0, 0, 0,
   0, c, 0, 0,
   0, 0, 1, 0,
   p.x * (1 - c), p.y * (1 - c), 0, 1⟩

/-- The translate-scale-translate composition of `handleWheel`'s
Texture branch is post-multiplication by the zoom matrix. -/
lemma translate_scale_translate_eq (m : Mat4) (p : Vec3) (c : ℚ) :
    mat4Translate (mat4Scale (mat4Translate m p) ⟨c, c, 1⟩) (vec3Negate p) =
      mat4Mul m (zoomMat p c) := by
  ext <;> simp [mat4Translate, mat4Scale, mat4Mul, zoomMat, vec3Negate] <;> ring

lemma wheelImageMatrix_eq_mul (scrollScale deltaY : ℚ) (mouse : Vec3) (m : Mat4) :
    wheelImageMatrix scrollScale deltaY mouse m =
      mat4Mul m (zoomMat (uiToImageCoordinates m mouse) (scaleFactor scrollScale deltaY)) :=
  translate_scale_translate_eq m _ _

lemma zoomMat_mul_inv (p : Vec3) (c : ℚ) (hc : c ≠ 0) :
    mat4Mul (zoomMat p c) (zoomMat p c⁻¹) = idMat := by
  ext <;> simp [mat4Mul, zoomMat, idMat] <;> field_simp <;> ring

lemma mat4Det_translate (a : Mat4) (v : Vec3) :
    mat4Det (mat4Translate a v) = mat4Det a := by
  simp only [mat4Det, mat4Translate]
  ring

lemma mat4Det_scale (a : Mat4) (v : Vec3) :
    mat4Det (mat4Scale a v) = mat4Det a * (v.x * v.y * v.z) := by
  simp only [mat4Det, mat4Scale]
  ring

/-- The scale factor computed by `handleWheel` is positive whenever
the wheel delta is nonzero and the scroll-scale constant positive. -/
lemma scaleFactor_pos (scrollScale deltaY : ℚ) (hss : 0 < scrollScale) (hd : deltaY ≠ 0) :
    0 < scaleFactor scrollScale deltaY := by
  unfold scaleFactor
  rcases lt_or_gt_of_ne hd with hneg | hpos
  · rw [if_pos hneg]
    have : 0 < -deltaY * scrollScale := by
      apply mul_pos _ hss
      linarith
    positivity
  · rw [if_neg (by linarith)]
    exact mul_pos hpos hss

set_option maxHeartbeats 2000000 in
/-- The gl-matrix inverse formula is a right inverse when the
determinant is nonzero. -/
lemma mat4Mul_invertFormula (a : Mat4) (h : mat4Det a ≠ 0) :
    mat4Mul a (mat4InvertFormula a) = idMat := by
  ext <;>
    simp only [mat4Mul, mat4InvertFormula, idMat] <;>
    field_simp <;>
    (try simp only [mat4Det]) <;>
    ring

set_option maxHeartbeats 2000000 in
/-- The gl-matrix inverse formula is a left inverse when the
determinant is nonzero. -/
lemma invertFormula_mul (a : Mat4) (h : mat4Det a ≠ 0) :
    mat4Mul (mat4InvertFormula a) a = idMat := by
  ext <;>
    simp only [mat4Mul, mat4InvertFormula, idMat] <;>
    field_simp <;>
    (try simp only [mat4Det]) <;>
    ring

lemma mat4Invert_eq_some (a : Mat4) (h : mat4Det a ≠ 0) :
    mat4Invert a = some (mat4InvertFormula a) := by
  unfold mat4Invert
  rw [if_neg h]

lemma mul_eq_id_unique (a b c : Mat4) (hab : mat4Mul a b = idMat)
    (hca : mat4Mul c a = idMat) : c = b := by
  have h1 : mat4Mul c (mat4Mul a b) = mat4Mul c idMat := by rw [hab]
  rw [← mat4Mul_assoc, hca, mat4Mul_id_left, mat4Mul_id_right] at h1
  exact h1.symm

/-- Affine in gl-matrix layout: bottom row `(m3, m7, m11, m15)` is
`(0, 0, 0, 1)`. -/
def IsAffine (m : Mat4) : Prop :=
  m.m3 = 0 ∧ m.m7 = 0 ∧ m.m11 = 0 ∧ m.m15 = 1

lemma isAffine_idMat : IsAffine idMat :=
  ⟨rfl, rfl, rfl, rfl⟩

lemma isAffine_translate {m : Mat4} (v : Vec3) (h : IsAffine m) :
    IsAffine (mat4Translate m v) := by
  obtain ⟨h3, h7, h11, h15⟩ := h
  refine ⟨h3, h7, h11, ?_⟩
  simp [mat4Translate, h3, h7, h11, h15]

lemma isAffine_scale {m : Mat4} (v : Vec3) (h : IsAffine m) :
    IsAffine (mat4Scale m v) := by
  obtain ⟨h3, h7, h11, h15⟩ := h
  exact ⟨by simp [mat4Scale, h3], by simp [mat4Scale, h7], by simp [mat4Scale, h11],
    by simp [mat4Scale, h15]⟩

/-- Every matrix the program can store in `imageMatrix` is affine. -/
lemma reachable_isAffine {m : Mat4} (h : ReachableImageMatrix m) : IsAffine m := by
  induction h with
  | init => exact isAffine_idMat
  | reset canvasW canvasH imgW imgH => exact isAffine_translate _ isAffine_idMat
  | wheel scrollScale deltaY mouse hm ih =>
      exact isAffine_translate _ (isAffine_scale _ (isAffine_translate _ ih))
  | pan position lastMousePosition hm ih => exact isAffine_translate _ ih

/-- A right inverse of an affine matrix is affine. -/
lemma affine_of_mul_id {a b : Mat4} (ha : IsAffine a) (hab : mat4Mul a b = idMat) :
    IsAffine b := by
  obtain ⟨h3, h7, h11, h15⟩ := ha
  have e3 := congrArg Mat4.m3 hab
  have e7 := congrArg Mat4.m7 hab
  have e11 := congrArg Mat4.m11 hab
  have e15 := congrArg Mat4.m15 hab
  simp [mat4Mul, idMat, h3, h7, h11, h15] at e3 e7 e11 e15
  exact ⟨e3, e7, e11, e15⟩

/-- Applying a zoom about the image of `q` before an affine matrix `n`
does not move the image of `q`. -/
lemma transform_zoom_mul (n : Mat4) (hn : IsAffine n) (q : Vec3) (c : ℚ) :
    vec3TransformMat4 q (mat4Mul (zoomMat (vec3TransformMat4 q n) c) n) =
      vec3TransformMat4 q n := by
  obtain ⟨h3, h7, h11, h15⟩ := hn
  ext <;>
    simp only [vec3TransformMat4, mat4Mul, zoomMat, h3, h7, h11, h15] <;>
    norm_num <;>
    ring

/-- C5: in Texture view mode, for every program-reachable invertible
`imageMatrix`, every nonzero wheel delta and positive scroll-scale
constant, the image-space coordinate of the zoom pivot (the cursor
position `mouse` mapped through `uiToImageCoordinates`) is unchanged
by `handleWheel`, in exact rational arithmetic: the wheel composes
translate(pivot) * scale(s) * translate(-pivot) onto the matrix, so
the point under the cursor does not drift.  (`ReachableImageMatrix`
captures the matrices the program can ever store in `imageMatrix`;
they are all affine, see `reachable_isAffine`.) -/
theorem wheelZoomPivotInvariant (scrollScale : ℚ) (mouse : Vec3)
    (clientWidth clientHeight : ℚ) (projectionMatrix : Mat4) (deltaY : ℚ) (s : Display)
    (hdt : s.displayType = DisplayType.Texture)
    (hreach : ReachableImageMatrix s.imageMatrix)
    (hdet : mat4Det s.imageMatrix ≠ 0)
    (hd : deltaY ≠ 0) (hss : 0 < scrollScale) :
    uiToImageCoordinates
      (handleWheel scrollScale mouse clientWidth clientHeight projectionMatrix
        deltaY s).imageMatrix mouse =
      uiToImageCoordinates s.imageMatrix mouse := by
  have hwheel : (handleWheel scrollScale mouse clientWidth clientHeight projectionMatrix
      deltaY s).imageMatrix = wheelImageMatrix scrollScale deltaY mouse s.imageMatrix := by
    unfold handleWheel
    rw [if_pos hd, hdt]
  rw [hwheel]
  have hsf : 0 < scaleFactor scrollScale deltaY := scaleFactor_pos _ _ hss hd
  have hsfne : scaleFactor scrollScale deltaY ≠ 0 := ne_of_gt hsf
  have hMN := mat4Mul_invertFormula s.imageMatrix hdet
  have hNM := invertFormula_mul s.imageMatrix hdet
  have hNaff : IsAffine (mat4InvertFormula s.imageMatrix) :=
    affine_of_mul_id (reachable_isAffine hreach) hMN
  have hp : uiToImageCoordinates s.imageMatrix mouse =
      vec3TransformMat4 mouse (mat4InvertFormula s.imageMatrix) := by
    unfold uiToImageCoordinates
    rw [mat4Invert_eq_some _ hdet]
    rfl
  -- determinant of the zoomed matrix
  have hdet2 : mat4Det (wheelImageMatrix scrollScale deltaY mouse s.imageMatrix) ≠ 0 := by
    show mat4Det (mat4Translate (mat4Scale
      (mat4Translate s.imageMatrix (uiToImageCoordinates s.imageMatrix mouse))
      ⟨scaleFactor scrollScale deltaY, scaleFactor scrollScale deltaY, 1⟩)
      (vec3Negate (uiToImageCoordinates s.imageMatrix mouse))) ≠ 0
    rw [mat4Det_translate, mat4Det_scale, mat4Det_translate]
    simp only [mul_one]
    exact mul_ne_zero hdet (mul_ne_zero hsfne hsfne)
  -- the inverse of the zoomed matrix
  have hC : mat4Mul (wheelImageMatrix scrollScale deltaY mouse s.imageMatrix)
      (mat4Mul (zoomMat (uiToImageCoordinates s.imageMatrix mouse)
        (scaleFactor scrollScale deltaY)⁻¹) (mat4InvertFormula s.imageMatrix)) = idMat := by
    rw [wheelImageMatrix_eq_mul, mat4Mul_assoc, ← mat4Mul_assoc
      (zoomMat (uiToImageCoordinates s.imageMatrix mouse) (scaleFactor scrollScale deltaY)),
      zoomMat_mul_inv _ _ hsfne, mat4Mul_id_left, hMN]
  have hCM : mat4Mul (mat4Mul (zoomMat (uiToImageCoordinates s.imageMatrix mouse)
      (scaleFactor scrollScale deltaY)⁻¹) (mat4InvertFormula s.imageMatrix))
      (wheelImageMatrix scrollScale deltaY mouse s.imageMatrix) = idMat := by
    rw [wheelImageMatrix_eq_mul, mat4Mul_assoc, ← mat4Mul_assoc
      (mat4InvertFormula s.imageMatrix), hNM, mat4Mul_id_left]
    have hz : zoomMat (uiToImageCoordinates s.imageMatrix mouse)
        (scaleFactor scrollScale deltaY) =
        zoomMat (uiToImageCoordinates s.imageMatrix mouse)
          ((scaleFactor scrollScale deltaY)⁻¹)⁻¹ := by
      rw [inv_inv]
    rw [hz, zoomMat_mul_inv _ _ (inv_ne_zero hsfne)]
  have hform : mat4InvertFormula (wheelImageMatrix scrollScale deltaY mouse s.imageMatrix) =
      mat4Mul (zoomMat (uiToImageCoordinates s.imageMatrix mouse)
        (scaleFactor scrollScale deltaY)⁻¹) (mat4InvertFormula s.imageMatrix) :=
    (mul_eq_id_unique _ _ _ (mat4Mul_invertFormula _ hdet2) hCM).symm
  have hconv : uiToImageCoordinates
      (wheelImageMatrix scrollScale deltaY mouse s.imageMatrix) mouse =
      vec3TransformMat4 mouse (mat4Mul (zoomMat (uiToImageCoordinates s.imageMatrix mouse)
        (scaleFactor scrollScale deltaY)⁻¹) (mat4InvertFormula s.imageMatrix)) := by
    unfold uiToImageCoordinates
    rw [mat4Invert_eq_some _ hdet2, hform]
    rfl
  rw [hconv, hp]
  exact transform_zoom_mul (mat4InvertFormula s.imageMatrix) hNaff mouse
    (scaleFactor scrollScale deltaY)⁻¹

/-- Witness for C5: zooming the freshly constructed display (identity
image matrix) by wheel delta 2 with scroll scale 1 and the cursor at
(5, 7, 0). -/
theorem wheelZoomPivotInvariant_witness :
    uiToImageCoordinates
      (handleWheel 1 ⟨5, 7, 0⟩ 100 100 idMat 2 (init DisplayType.Texture 1 1)).imageMatrix
      ⟨5, 7, 0⟩ =
      uiToImageCoordinates (init DisplayType.Texture 1 1).imageMatrix ⟨5, 7, 0⟩ :=
  wheelZoomPivotInvariant 1 ⟨5, 7, 0⟩ 100 100 idMat 2 (init DisplayType.Texture 1 1) rfl
    ReachableImageMatrix.init (by norm_num [init, mat4Det, idMat]) (by norm_num) (by norm_num)
